import Mathlib

/-!
Shallow embedding of the SV39 virtual-memory subsystem of the rCore-style
kernel (files `src/os/src/mm/page_table.rs`, `src/os/src/mm/memory_set.rs`,
`src/os/src/task/task.rs`, `src/os/src/syscall/process.rs`).

Physical memory visible to the page-table code is a `Machine`: a total map
from (physical page number, slot index) to 64-bit PTE values, plus the frame
allocator cursor.  Stateful Rust methods become state-passing Lean functions
returning `Option`; `none` models a kernel panic (a failed `unwrap` or
`assert!`).
-/

namespace RCoreMM

/-- Modelled from the spec: `config.rs` is not in the source tree; §3 fixes
4 KiB pages, so `PAGE_SIZE = 4096` and a page offset is the low 12 bits. -/
def PAGE_SIZE : Nat := 4096

/-- Modelled from the spec: `frame_allocator.rs` is not in the source tree.
§4.1 describes an allocator over a bounded physical-page region `[first,
last)`; we bound available frames by the 44-bit PPN width of SV39 (§6), the
largest region any configuration can use. -/
def FRAME_CAP : Nat := 2 ^ 44

/-- The physical memory and the frame-allocator state.  `mem p i` is the
64-bit PTE stored at slot `i` of the page-table node living in frame `p`;
`nextFrame` is the next never-allocated physical page number. -/
structure Machine where
  mem : Nat → Nat → Nat
  nextFrame : Nat

/-- The machine at boot: all memory zeroed, no frame handed out yet. -/
def initMachine : Machine := ⟨fun _ _ => 0, 0⟩

/-- Store PTE value `v` at slot `i` of frame `p` (the effect of assigning
through the `&mut PageTableEntry` returned by the walkers). -/
def writeMem (st : Machine) (p i v : Nat) : Machine :=
  ⟨fun q j => if q = p ∧ j = i then v else st.mem q j, st.nextFrame⟩

/-- Modelled from the spec: `frame_alloc` of the missing
`frame_allocator.rs`.  §4.1: allocation hands out an unused physical page
number, fails when the region is exhausted, and the fresh frame's bytes are
all zero immediately after allocation. -/
def frame_alloc (st : Machine) : Option (Nat × Machine) :=
  if st.nextFrame < FRAME_CAP then
    some (st.nextFrame,
      ⟨fun q j => if q = st.nextFrame then 0 else st.mem q j, st.nextFrame + 1⟩)
  else none

/-- `PageTableEntry::new`: `bits = ppn.0 << 10 | flags.bits as usize`. -/
def pteNew (ppn flags : Nat) : Nat := ppn <<< 10 ||| flags

/-- `PageTableEntry::empty`: `bits = 0`. -/
def pteEmpty : Nat := 0

/-- `PageTableEntry::ppn`: `bits >> 10 & ((1 << 44) - 1)`. -/
def ptePpn (pte : Nat) : Nat := pte >>> 10 &&& (1 <<< 44 - 1)

/-- `PageTableEntry::flags`: `PTEFlags::from_bits(bits as u8).unwrap()`.
All eight low bits are named flags, so `from_bits` on a `u8` never fails and
the result is just the low byte. -/
def pteFlags (pte : Nat) : Nat := pte % 256

/-- `PageTableEntry::is_valid`: flag bit `V = 1 << 0` is set. -/
def pteValid (pte : Nat) : Bool := pteFlags pte &&& 1 != 0

/-- `PageTableEntry::readable`: flag bit `R = 1 << 1` is set. -/
def pteReadable (pte : Nat) : Bool := pteFlags pte &&& 2 != 0

/-- `PageTableEntry::writable`: flag bit `W = 1 << 2` is set. -/
def pteWritable (pte : Nat) : Bool := pteFlags pte &&& 4 != 0

/-- `PageTableEntry::executable`: flag bit `X = 1 << 3` is set. -/
def pteExecutable (pte : Nat) : Bool := pteFlags pte &&& 8 != 0

/-- Modelled from the spec: `VirtAddr::floor` of the missing `address.rs`
(§3): the page number of the containing page. -/
def vaFloor (va : Nat) : Nat := va / PAGE_SIZE

/-- Modelled from the spec: `VirtAddr::ceil` of the missing `address.rs`
(§3): the page number of the next page when not aligned. -/
def vaCeil (va : Nat) : Nat := (va + (PAGE_SIZE - 1)) / PAGE_SIZE

/-- Modelled from the spec: `VirtAddr::page_offset` of the missing
`address.rs` (§3): the low 12 bits. -/
def pageOffset (va : Nat) : Nat := va % PAGE_SIZE

/-- Modelled from the spec: the high 9-bit index of `VirtPageNum::indexes`
(§6: VA bits 38:30, i.e. vpn bits 26:18). -/
def idx2 (vpn : Nat) : Nat := vpn >>> 18 &&& 511

/-- Modelled from the spec: the middle 9-bit index of `VirtPageNum::indexes`
(§6: VA bits 29:21, i.e. vpn bits 17:9). -/
def idx1 (vpn : Nat) : Nat := vpn >>> 9 &&& 511

/-- Modelled from the spec: the low 9-bit index of `VirtPageNum::indexes`
(§6: VA bits 20:12, i.e. vpn bits 8:0). -/
def idx0 (vpn : Nat) : Nat := vpn &&& 511

/-- Modelled from the spec: `VPNRange::new(s, e)` iterated in VPN order
(§4.3), i.e. the list `s, s+1, ..., e-1`, empty when `e ≤ s`. -/
def vpnRangeList (s e : Nat) : List Nat := (List.range (e - s)).map (fun k => s + k)

/-- `PageTable`: root physical page number plus the frames (as bare page
numbers) owned for every node ever allocated for this table. -/
structure PageTable where
  root_ppn : Nat
  frames : List Nat

/-- `PageTable::new`: allocate the root frame (panicking on out-of-memory)
and keep its handle. -/
def PageTable.new (st : Machine) : Option (Machine × PageTable) :=
  match frame_alloc st with
  | none => none
  | some (f, st1) => some (st1, ⟨f, [f]⟩)

/-- `PageTable::from_token`: read-only walker; root PPN is the low 44 bits
of the token, frame list empty. -/
def PageTable.from_token (satp : Nat) : PageTable := ⟨satp &&& (1 <<< 44 - 1), []⟩

/-- One non-leaf step of `find_pte_create`: inspect the entry at `idx` of
node `node`; if invalid, allocate a frame, write `(frame_ppn, V)` there and
record the new frame; descend to `pte.ppn()` of the (possibly just written)
entry. -/
def descend (st : Machine) (node idx : Nat) : Option (Machine × List Nat × Nat) :=
  let pte := st.mem node idx
  if pteValid pte then some (st, [], ptePpn pte)
  else
    match frame_alloc st with
    | none => none
    | some (f, st1) =>
      some (writeMem st1 node idx (pteNew f 1), [f], ptePpn (pteNew f 1))

/-- `PageTable::find_pte_create`: walk levels 2 and 1 with creation, then
return the machine, the frames allocated on the way, and the location
(node frame, slot index) of the level-0 leaf entry. -/
def find_pte_create (st : Machine) (root vpn : Nat) :
    Option (Machine × List Nat × Nat × Nat) :=
  match descend st root (idx2 vpn) with
  | none => none
  | some (st1, fs2, n1) =>
    match descend st1 n1 (idx1 vpn) with
    | none => none
    | some (st2, fs1, n2) => some (st2, fs2 ++ fs1, n2, idx0 vpn)

/-- `PageTable::find_pte` walk without creation, returning the location of
the leaf slot: `none` as soon as a level-2 or level-1 entry is invalid; the
level-0 entry itself is returned without any validity check. -/
def findLeafSlot (st : Machine) (root vpn : Nat) : Option (Nat × Nat) :=
  let pte2 := st.mem root (idx2 vpn)
  if pteValid pte2 then
    let pte1 := st.mem (ptePpn pte2) (idx1 vpn)
    if pteValid pte1 then some (ptePpn pte1, idx0 vpn) else none
  else none

/-- The PTE value `PageTable::find_pte` exposes: the contents of the leaf
slot reached by the walk, if the walk reaches one. -/
def find_pte (st : Machine) (root vpn : Nat) : Option Nat :=
  (findLeafSlot st root vpn).map (fun s => st.mem s.1 s.2)

/-- `PageTable::map`: walk with creation (`unwrap` of the allocator inside
may panic), `assert!` that the leaf is invalid (double map is fatal), then
write `(ppn, flags | V)`. -/
def PageTable.map (st : Machine) (pt : PageTable) (vpn ppn flags : Nat) :
    Option (Machine × PageTable) :=
  match find_pte_create st pt.root_ppn vpn with
  | none => none
  | some (st1, newfs, n, i) =>
    if pteValid (st1.mem n i) then none
    else some (writeMem st1 n i (pteNew ppn (flags ||| 1)),
               ⟨pt.root_ppn, pt.frames ++ newfs⟩)

/-- `PageTable::unmap`: `find_pte(vpn).unwrap()` (panic when the walk fails),
`assert!` the leaf is valid (double unmap is fatal), then overwrite with the
empty entry. -/
def PageTable.unmap (st : Machine) (pt : PageTable) (vpn : Nat) :
    Option (Machine × PageTable) :=
  match findLeafSlot st pt.root_ppn vpn with
  | none => none
  | some (n, i) =>
    if pteValid (st.mem n i) then some (writeMem st n i pteEmpty, pt) else none

/-- `PageTable::translate`: `find_pte(vpn).map(|pte| *pte)`. -/
def PageTable.translate (st : Machine) (pt : PageTable) (vpn : Nat) : Option Nat :=
  find_pte st pt.root_ppn vpn

/-- `PageTable::token`: `8usize << 60 | root_ppn`. -/
def PageTable.token (pt : PageTable) : Nat := 8 <<< 60 ||| pt.root_ppn

/-- `MapType`: identical or framed mapping. -/
inductive MapType where
  | Identical
  | Framed
deriving DecidableEq

/-- `MapArea`: virtual-page range `[vpn_start, vpn_end)`, the VPN-to-frame
map for framed areas, the map type, and the permission byte (a
`MapPermission` subset of `R|W|X|U`, i.e. bits 1..4). -/
structure MapArea where
  vpn_start : Nat
  vpn_end : Nat
  data_frames : Nat → Option Nat
  map_type : MapType
  map_perm : Nat

/-- `MapArea::new`: the range is `[floor(start_va), ceil(end_va))`, frame
map empty. -/
def MapArea.new (start_va end_va : Nat) (mt : MapType) (perm : Nat) : MapArea :=
  ⟨vaFloor start_va, vaCeil end_va, fun _ => none, mt, perm⟩

/-- `impl PartialEq for MapArea`: equal start VPN, end VPN and map type;
permissions and backing frames do not participate. -/
def MapArea.areaEq (a b : MapArea) : Bool :=
  a.vpn_start == b.vpn_start && a.vpn_end == b.vpn_end && a.map_type == b.map_type

/-- `MapArea::map_one`: pick the PPN (equal to the VPN for `Identical`, a
freshly allocated frame recorded in `data_frames` for `Framed`), reinterpret
the permission bits as PTE flags (`PTEFlags::from_bits` of a full `u8`
bitflags never fails), and call `PageTable::map`. -/
def MapArea.map_one (st : Machine) (a : MapArea) (pt : PageTable) (vpn : Nat) :
    Option (Machine × MapArea × PageTable) :=
  match a.map_type with
  | MapType.Identical =>
    match PageTable.map st pt vpn vpn a.map_perm with
    | none => none
    | some (st1, pt1) => some (st1, a, pt1)
  | MapType.Framed =>
    match frame_alloc st with
    | none => none
    | some (f, st1) =>
      let a1 : MapArea := ⟨a.vpn_start, a.vpn_end,
        fun v => if v = vpn then some f else a.data_frames v, a.map_type, a.map_perm⟩
      match PageTable.map st1 pt vpn f a.map_perm with
      | none => none
      | some (st2, pt2) => some (st2, a1, pt2)

/-- `MapArea::unmap_one`: for `Framed` remove the frame handle from
`data_frames`, then call `PageTable::unmap`. -/
def MapArea.unmap_one (st : Machine) (a : MapArea) (pt : PageTable) (vpn : Nat) :
    Option (Machine × MapArea × PageTable) :=
  let a1 : MapArea :=
    if a.map_type = MapType.Framed then
      ⟨a.vpn_start, a.vpn_end, fun v => if v = vpn then none else a.data_frames v,
       a.map_type, a.map_perm⟩
    else a
  match PageTable.unmap st pt vpn with
  | none => none
  | some (st1, pt1) => some (st1, a1, pt1)

/-- The loop of `MapArea::map`: `map_one` on each VPN of the given list in
order. -/
def mapAllGo : Machine → MapArea → PageTable → List Nat →
    Option (Machine × MapArea × PageTable)
  | st, a, pt, [] => some (st, a, pt)
  | st, a, pt, v :: vs =>
    match MapArea.map_one st a pt v with
    | none => none
    | some (st1, a1, pt1) => mapAllGo st1 a1 pt1 vs

/-- The loop of `MapArea::unmap`: `unmap_one` on each VPN of the given list
in order. -/
def unmapAllGo : Machine → MapArea → PageTable → List Nat →
    Option (Machine × MapArea × PageTable)
  | st, a, pt, [] => some (st, a, pt)
  | st, a, pt, v :: vs =>
    match MapArea.unmap_one st a pt v with
    | none => none
    | some (st1, a1, pt1) => unmapAllGo st1 a1 pt1 vs

/-- `MapArea::map`: `map_one` over the whole VPN range. -/
def MapArea.mapArea (st : Machine) (a : MapArea) (pt : PageTable) :
    Option (Machine × MapArea × PageTable) :=
  mapAllGo st a pt (vpnRangeList a.vpn_start a.vpn_end)

/-- `MapArea::unmap`: `unmap_one` over the whole VPN range. -/
def MapArea.unmapArea (st : Machine) (a : MapArea) (pt : PageTable) :
    Option (Machine × MapArea × PageTable) :=
  unmapAllGo st a pt (vpnRangeList a.vpn_start a.vpn_end)

/-- `MapArea::shrink_to`: unmap `[new_end, end)`, then set the range to
`[start, new_end)`. -/
def MapArea.shrinkArea (st : Machine) (a : MapArea) (pt : PageTable) (new_end : Nat) :
    Option (Machine × MapArea × PageTable) :=
  match unmapAllGo st a pt (vpnRangeList new_end a.vpn_end) with
  | none => none
  | some (st1, a1, pt1) =>
    some (st1, ⟨a1.vpn_start, new_end, a1.data_frames, a1.map_type, a1.map_perm⟩, pt1)

/-- `MapArea::append_to`: map `[end, new_end)`, then set the range to
`[start, new_end)`. -/
def MapArea.appendArea (st : Machine) (a : MapArea) (pt : PageTable) (new_end : Nat) :
    Option (Machine × MapArea × PageTable) :=
  match mapAllGo st a pt (vpnRangeList a.vpn_end new_end) with
  | none => none
  | some (st1, a1, pt1) =>
    some (st1, ⟨a1.vpn_start, new_end, a1.data_frames, a1.map_type, a1.map_perm⟩, pt1)

/-- `MemorySet`: one page table plus the ordered list of map areas. -/
structure MemorySet where
  page_table : PageTable
  areas : List MapArea

/-- `MemorySet::new_bare`: fresh page table, empty area list. -/
def MemorySet.new_bare (st : Machine) : Option (Machine × MemorySet) :=
  match PageTable.new st with
  | none => none
  | some (st1, pt) => some (st1, ⟨pt, []⟩)

/-- `MemorySet::push` on the `data = None` path taken by
`insert_framed_area`: map the whole area, then append it to the list. -/
def MemorySet.push (st : Machine) (ms : MemorySet) (a : MapArea) :
    Option (Machine × MemorySet) :=
  match MapArea.mapArea st a ms.page_table with
  | none => none
  | some (st1, a1, pt1) => some (st1, ⟨pt1, ms.areas ++ [a1]⟩)

/-- `MemorySet::insert_framed_area`: push a fresh `Framed` area over
`[floor(start_va), ceil(end_va))`. -/
def MemorySet.insert_framed_area (st : Machine) (ms : MemorySet)
    (start_va end_va perm : Nat) : Option (Machine × MemorySet) :=
  MemorySet.push st ms (MapArea.new start_va end_va MapType.Framed perm)

/-- `MemorySet::pop`: first unconditionally `unmap` the template area over
its whole range (which can panic), then remove the first area equal to the
template, if any, from the list. -/
def MemorySet.pop (st : Machine) (ms : MemorySet) (tmpl : MapArea) :
    Option (Machine × MemorySet) :=
  match MapArea.unmapArea st tmpl ms.page_table with
  | none => none
  | some (st1, _, pt1) =>
    match ms.areas.findIdx? (fun a => MapArea.areaEq a tmpl) with
    | some i => some (st1, ⟨pt1, ms.areas.eraseIdx i⟩)
    | none => some (st1, ⟨pt1, ms.areas⟩)

/-- `MemorySet::delete_framed_area`: pop with a `Framed` template over
`[floor(start_va), ceil(end_va))` and empty permissions. -/
def MemorySet.delete_framed_area (st : Machine) (ms : MemorySet)
    (start_va end_va : Nat) : Option (Machine × MemorySet) :=
  MemorySet.pop st ms (MapArea.new start_va end_va MapType.Framed 0)

/-- `MemorySet::translate`: delegate to the page table. -/
def MemorySet.translate (st : Machine) (ms : MemorySet) (vpn : Nat) : Option Nat :=
  PageTable.translate st ms.page_table vpn

/-- `MemorySet::token`: delegate to the page table. -/
def MemorySet.token (ms : MemorySet) : Nat := ms.page_table.token

/-- The `iter_mut().find(...)` of `MemorySet::shrink_to`: locate the first
area whose start VPN matches and shrink it in place; report whether one was
found. -/
def shrinkFind : Machine → PageTable → Nat → Nat → List MapArea →
    Option (Machine × PageTable × List MapArea × Bool)
  | st, pt, _, _, [] => some (st, pt, [], false)
  | st, pt, startVpn, new_end, a :: rest =>
    if a.vpn_start = startVpn then
      match MapArea.shrinkArea st a pt new_end with
      | none => none
      | some (st1, a1, pt1) => some (st1, pt1, a1 :: rest, true)
    else
      match shrinkFind st pt startVpn new_end rest with
      | none => none
      | some (st1, pt1, rest1, b) => some (st1, pt1, a :: rest1, b)

/-- The `iter_mut().find(...)` of `MemorySet::append_to`: locate the first
area whose start VPN matches and append to it in place; report whether one
was found. -/
def appendFind : Machine → PageTable → Nat → Nat → List MapArea →
    Option (Machine × PageTable × List MapArea × Bool)
  | st, pt, _, _, [] => some (st, pt, [], false)
  | st, pt, startVpn, new_end, a :: rest =>
    if a.vpn_start = startVpn then
      match MapArea.appendArea st a pt new_end with
      | none => none
      | some (st1, a1, pt1) => some (st1, pt1, a1 :: rest, true)
    else
      match appendFind st pt startVpn new_end rest with
      | none => none
      | some (st1, pt1, rest1, b) => some (st1, pt1, a :: rest1, b)

/-- `MemorySet::shrink_to`: find the area whose start VPN is `floor(start)`
and shrink it to `ceil(new_end)`; `false` when no area is found. -/
def MemorySet.shrink_to (st : Machine) (ms : MemorySet) (start new_end : Nat) :
    Option (Machine × MemorySet × Bool) :=
  match shrinkFind st ms.page_table (vaFloor start) (vaCeil new_end) ms.areas with
  | none => none
  | some (st1, pt1, areas1, b) => some (st1, ⟨pt1, areas1⟩, b)

/-- `MemorySet::append_to`: find the area whose start VPN is `floor(start)`
and append it to `ceil(new_end)`; `false` when no area is found. -/
def MemorySet.append_to (st : Machine) (ms : MemorySet) (start new_end : Nat) :
    Option (Machine × MemorySet × Bool) :=
  match appendFind st ms.page_table (vaFloor start) (vaCeil new_end) ms.areas with
  | none => none
  | some (st1, pt1, areas1, b) => some (st1, ⟨pt1, areas1⟩, b)

/-- The fields of `TaskControlBlock` that the memory subsystem reads and
writes: the task's address space, the heap bottom and the program break. -/
structure TaskControlBlock where
  memory_set : MemorySet
  heap_bottom : Nat
  program_brk : Nat

/-- `TaskControlBlock::change_program_brk`: refuse (returning `None`, with
no state change) when the new break would drop below `heap_bottom`;
otherwise shrink or append the heap area and, on success, record the new
break and return the old one. -/
def change_program_brk (st : Machine) (t : TaskControlBlock) (size : Int) :
    Option (Machine × TaskControlBlock × Option Nat) :=
  if (t.program_brk : Int) + size < (t.heap_bottom : Int) then some (st, t, none)
  else
    match (if size < 0 then
             MemorySet.shrink_to st t.memory_set t.heap_bottom
               ((t.program_brk : Int) + size).toNat
           else
             MemorySet.append_to st t.memory_set t.heap_bottom
               ((t.program_brk : Int) + size).toNat) with
    | none => none
    | some (st1, ms1, result) =>
      if result then
        some (st1, ⟨ms1, t.heap_bottom, ((t.program_brk : Int) + size).toNat⟩,
          some t.program_brk)
      else some (st1, ⟨ms1, t.heap_bottom, t.program_brk⟩, none)

/-- `sys_sbrk`: the old break on success, `-1` when `change_program_brk`
returns `None`. -/
def sys_sbrk (st : Machine) (t : TaskControlBlock) (size : Int) :
    Option (Machine × TaskControlBlock × Int) :=
  match change_program_brk st t size with
  | none => none
  | some (st1, t1, some old) => some (st1, t1, (old : Int))
  | some (st1, t1, none) => some (st1, t1, -1)

/-- Modelled from the spec: `create_memory_area` lives in the missing
`src/os/src/task/mod.rs`.  §6 `mmap`: fail with `-1` if any page of
`[start, start+len)` is already mapped (the commented-out
`create_framed_area` in `memory_set.rs` checks `translate(...)` being
`Some`), else insert a `Framed` area with permissions `(port << 1) | U`
(`U = 1 << 4`) and return `0`. -/
def create_memory_area (st : Machine) (t : TaskControlBlock) (start len port : Nat) :
    Option (Machine × TaskControlBlock × Int) :=
  if (vpnRangeList (vaFloor start) (vaCeil (start + len))).any
      (fun vpn => (MemorySet.translate st t.memory_set vpn).isSome) then
    some (st, t, -1)
  else
    match MemorySet.insert_framed_area st t.memory_set start (start + len)
        ((port <<< 1) ||| 16) with
    | none => none
    | some (st1, ms1) => some (st1, ⟨ms1, t.heap_bottom, t.program_brk⟩, 0)

/-- Bit width of `usize`; `!0b111` as a `usize` literal is `2^64 - 8`. -/
def USIZE_TOP : Nat := 2 ^ 64

/-- `sys_mmap`: require `start % PAGE_SIZE == 0`, `port & !0b111 == 0` and
`port & 0b111 != 0`, else return `-1` touching nothing; delegate to
`create_memory_area` when the checks pass. -/
def sys_mmap (st : Machine) (t : TaskControlBlock) (start len port : Nat) :
    Option (Machine × TaskControlBlock × Int) :=
  if start % PAGE_SIZE = 0 ∧ port &&& (USIZE_TOP - 8) = 0 ∧ port &&& 7 ≠ 0 then
    create_memory_area st t start len port
  else some (st, t, -1)

/-- `translated_va_to_pa`: build a read-only walker from the token,
translate `floor(va)`, and on `Some pte` return `pte.ppn() << 12 +
page_offset(va)` with no validity check on the leaf. -/
def translated_va_to_pa (st : Machine) (token va : Nat) : Option Nat :=
  let pt := PageTable.from_token token
  match PageTable.translate st pt (vaFloor va) with
  | some pte => some (ptePpn pte * PAGE_SIZE + pageOffset va)
  | none => none

/-- The `while start < end` loop of `translated_byte_buffer`: translate the
current page (panicking via `unwrap` when the walk fails), emit the slice
`(ppn, start offset, end offset)` of that frame, and continue at the next
page boundary clipped to `end`. -/
def tbbLoop (st : Machine) (root start end_ : Nat) :
    Option (List (Nat × Nat × Nat)) :=
  if h : start < end_ then
    match find_pte st root (start / PAGE_SIZE) with
    | none => none
    | some pte =>
      match tbbLoop st root (min ((start / PAGE_SIZE + 1) * PAGE_SIZE) end_) end_ with
      | none => none
      | some rest =>
        let end_va := min ((start / PAGE_SIZE + 1) * PAGE_SIZE) end_
        let slice :=
          if end_va % PAGE_SIZE = 0 then (ptePpn pte, start % PAGE_SIZE, PAGE_SIZE)
          else (ptePpn pte, start % PAGE_SIZE, end_va % PAGE_SIZE)
        some (slice :: rest)
  else some []
termination_by end_ - start
decreasing_by
  simp only [PAGE_SIZE] at *
  omega

/-- `translated_byte_buffer(token, ptr, len)`: run the loop over
`[ptr, ptr + len)` with the read-only walker built from the token. -/
def translated_byte_buffer (st : Machine) (token ptr len : Nat) :
    Option (List (Nat × Nat × Nat)) :=
  tbbLoop st (PageTable.from_token token).root_ppn ptr (ptr + len)

/-- Well-formedness of the machine: every valid entry anywhere in memory
points below the allocation cursor, so no stored PPN can alias a frame the
allocator has yet to hand out. -/
def Bounded (st : Machine) : Prop :=
  ∀ p i, pteValid (st.mem p i) = true → ptePpn (st.mem p i) < st.nextFrame

/-- Invariant tying a page-table root to the machine: the root frame was
allocated, the cursor stays within the allocator's region, and all valid
entries point to allocated frames. -/
def Inv (st : Machine) (root : Nat) : Prop :=
  root < st.nextFrame ∧ st.nextFrame ≤ FRAME_CAP ∧ Bounded st

/-- Evolution relation between machines: the allocation cursor only grows
and every valid entry in an already-allocated frame keeps its value (the
page-table code only ever writes into slots that are currently invalid, and
only zeroes frames at the cursor). -/
def Preserves (st st1 : Machine) : Prop :=
  st.nextFrame ≤ st1.nextFrame ∧
  ∀ p i, p < st.nextFrame → pteValid (st.mem p i) = true → st1.mem p i = st.mem p i

/-- One concrete boot step: a bare memory set built on the boot machine. -/
def bareRun : Option (Machine × MemorySet) := MemorySet.new_bare initMachine

/-- The machine after `bareRun` (root frame 0 allocated and zeroed). -/
def bareSt : Machine := (bareRun.map Prod.fst).getD initMachine

/-- The bare memory set of `bareRun` (root 0, no areas). -/
def bareMs : MemorySet := (bareRun.map Prod.snd).getD ⟨⟨0, []⟩, []⟩

/-- Concrete scenario for walk-with-creation: a fresh page table on the boot
machine, then a single `map(0x201, 0x55555, R|W|U)` (`R|W|U = 22`). -/
def c6run : Option (Machine × PageTable) :=
  match PageTable.new initMachine with
  | none => none
  | some (st1, pt1) => PageTable.map st1 pt1 0x201 0x55555 22

/-- The machine after `c6run`. -/
def c6St : Machine := (c6run.map Prod.fst).getD initMachine

/-- The page table after `c6run`. -/
def c6Pt : PageTable := (c6run.map Prod.snd).getD ⟨0, []⟩

/-- Concrete scenario for translation of an invalid leaf: map vpn `0x201`,
then unmap it again, leaving the intermediate nodes valid and the leaf slot
zeroed. -/
def c2run : Option (Machine × PageTable) :=
  match c6run with
  | none => none
  | some (st2, pt2) => PageTable.unmap st2 pt2 0x201

/-- The machine after `c2run`. -/
def c2St : Machine := (c2run.map Prod.fst).getD initMachine

/-- The page table after `c2run`. -/
def c2Pt : PageTable := (c2run.map Prod.snd).getD ⟨0, []⟩

/-- Concrete scenario for the round-trip property: insert a one-page framed
read-only area `[0x1000, 0x2000)` into the bare memory set. -/
def c1run : Option (Machine × MemorySet) :=
  MemorySet.insert_framed_area bareSt bareMs 0x1000 0x2000 2

/-- The machine after `c1run`. -/
def c1St : Machine := (c1run.map Prod.fst).getD initMachine

/-- The memory set after `c1run`. -/
def c1Ms : MemorySet := (c1run.map Prod.snd).getD ⟨⟨0, []⟩, []⟩

/-- A task control block with no mapped memory at all. -/
def cTcb0 : TaskControlBlock := ⟨⟨⟨0, []⟩, []⟩, 0, 0⟩

/-- A task control block whose heap area is the empty framed area at
virtual address `0x1000` (vpn 1), heap bottom and break both `0x1000`,
mirroring the state `from_elf` leaves for `sbrk`. -/
def cTcbHeap : TaskControlBlock :=
  ⟨⟨⟨0, []⟩, [⟨1, 1, fun _ => none, MapType.Framed, 22⟩]⟩, 0x1000, 0x1000⟩

/-- Bitwise-or against a shifted value is plain addition when the low part
fits below the shift. -/
theorem shiftLeft_lor_eq_add (a b k : Nat) (h : b < 2 ^ k) :
    a <<< k ||| b = a * 2 ^ k + b := by
  rw [Nat.shiftLeft_eq, Nat.mul_comm]
  exact (Nat.mul_add_lt_is_or h a).symm

/-- The 44-bit PPN mask written as the code writes it. -/
theorem ppnMask_eq : (1 <<< 44 : Nat) - 1 = 2 ^ 44 - 1 := by
  rw [Nat.shiftLeft_eq, one_mul]

/-- `ppn()` recovers the page number stored by `PageTableEntry::new` as long
as the page number fits in 44 bits and the flags in the low 10 bits. -/
theorem pteNew_ppn (ppn flags : Nat) (hp : ppn < 2 ^ 44) (hf : flags < 1024) :
    ptePpn (pteNew ppn flags) = ppn := by
  unfold ptePpn pteNew
  rw [shiftLeft_lor_eq_add ppn flags 10 (by omega)]
  rw [Nat.shiftRight_eq_div_pow, ppnMask_eq, Nat.and_pow_two_sub_one_eq_mod]
  have h1 : (2 : Nat) ^ 10 = 1024 := by norm_num
  have h2 : (2 : Nat) ^ 44 = 17592186044416 := by norm_num
  rw [h1, h2] at *
  omega

/-- `flags()` recovers the flag byte stored by `PageTableEntry::new`. -/
theorem pteNew_flags (ppn flags : Nat) (hf : flags < 256) :
    pteFlags (pteNew ppn flags) = flags := by
  unfold pteFlags pteNew
  rw [shiftLeft_lor_eq_add ppn flags 10 (by omega)]
  have h1 : (2 : Nat) ^ 10 = 1024 := by norm_num
  rw [h1]
  omega

/-- An entry built with an odd flag byte is valid. -/
theorem pteNew_valid (ppn flags : Nat) (hf : flags < 256) (hodd : flags % 2 = 1) :
    pteValid (pteNew ppn flags) = true := by
  unfold pteValid
  rw [pteNew_flags ppn flags hf, Nat.and_one_is_mod, hodd]
  rfl

/-- The zero entry is invalid. -/
theorem pteValid_zero : pteValid 0 = false := by decide

/-- Facts about permission bytes below 32 (`R|W|X|U` occupy bits 1..4):
oring in `V` keeps the byte below 256, makes it odd, and does not change the
`U` bit. -/
theorem perm_or_one_facts :
    ∀ x, x < 32 → (x ||| 1) < 256 ∧ (x ||| 1) % 2 = 1 ∧
      (x ||| 1) &&& 16 = x &&& 16 ∧ (x ||| 1) < 1024 := by decide

/-- C8: for every page table (whose root PPN fits the 44-bit hardware PPN
width), `token()` equals `(8 << 60) | root_ppn`; consequently the top nibble
is `8` (SV39 mode) and the low 44 bits are the root PPN. -/
theorem c8_token_format (pt : PageTable) (h : pt.root_ppn < 2 ^ 44) :
    pt.token = 8 <<< 60 ||| pt.root_ppn ∧
    pt.token >>> 60 = 8 ∧
    pt.token &&& (1 <<< 44 - 1) = pt.root_ppn := by
  have h60 : pt.root_ppn < 2 ^ 60 := lt_trans h (by norm_num)
  have he : (8 : Nat) <<< 60 ||| pt.root_ppn = 8 * 2 ^ 60 + pt.root_ppn :=
    shiftLeft_lor_eq_add 8 pt.root_ppn 60 h60
  have htok : pt.token = 8 * 2 ^ 60 + pt.root_ppn := he
  refine ⟨rfl, ?_, ?_⟩
  · rw [htok, Nat.shiftRight_eq_div_pow]
    have h2 : (2 : Nat) ^ 60 = 1152921504606846976 := by norm_num
    rw [h2] at *
    omega
  · rw [htok, ppnMask_eq, Nat.and_pow_two_sub_one_eq_mod]
    have h2 : (2 : Nat) ^ 60 = 1152921504606846976 := by norm_num
    have h3 : (2 : Nat) ^ 44 = 17592186044416 := by norm_num
    rw [h2, h3] at *
    omega

/-- Witness for C8 at the concrete page table with root PPN 5. -/
theorem c8_token_format_witness :
    (5 : Nat) < 2 ^ 44 ∧
    ((PageTable.mk 5 []).token = 8 <<< 60 ||| 5 ∧
      (PageTable.mk 5 []).token >>> 60 = 8 ∧
      (PageTable.mk 5 []).token &&& (1 <<< 44 - 1) = 5) :=
  ⟨by norm_num, c8_token_format ⟨5, []⟩ (by norm_num)⟩

/-- C4 counterexample: `PTE::new(ppn=0x12345, flags=R|X|V)` produces bits
`(0x12345 << 10) | 0b1011 = 0x48D140B`, which is not the value
`0x48D14000B` stated in the claim. -/
theorem c4_counterexample :
    pteNew 0x12345 0b1011 = 0x48D140B ∧ pteNew 0x12345 0b1011 ≠ 0x48D14000B := by
  decide

/-- C4 (amended): `PTE::new(ppn=0x12345, flags=R|X|V)` has bits
`(0x12345 << 10) | 0b1011 = 0x48D140B`; on that entry `ppn()` is `0x12345`,
`readable()` and `executable()` and `is_valid()` hold, `writable()` does
not. -/
theorem c4_pte_encoding :
    pteNew 0x12345 0b1011 = 0x48D140B ∧
    ptePpn (pteNew 0x12345 0b1011) = 0x12345 ∧
    pteReadable (pteNew 0x12345 0b1011) = true ∧
    pteWritable (pteNew 0x12345 0b1011) = false ∧
    pteExecutable (pteNew 0x12345 0b1011) = true ∧
    pteValid (pteNew 0x12345 0b1011) = true := by
  decide

/-- C9: two map areas are equal exactly when their start VPN, end VPN and
map type agree; the permission byte and the backing-frame map play no role
(replacing both in both areas leaves the verdict unchanged). -/
theorem c9_area_equality (a b : MapArea) (df df2 : Nat → Option Nat) (p p2 : Nat) :
    (MapArea.areaEq a b = true ↔
      (a.vpn_start = b.vpn_start ∧ a.vpn_end = b.vpn_end ∧ a.map_type = b.map_type)) ∧
    MapArea.areaEq ⟨a.vpn_start, a.vpn_end, df, a.map_type, p⟩
        ⟨b.vpn_start, b.vpn_end, df2, b.map_type, p2⟩ = MapArea.areaEq a b := by
  constructor
  · unfold MapArea.areaEq
    simp [Bool.and_eq_true, and_assoc]
  · rfl

/-- C6: on the boot machine, `PageTable::new` holds exactly one frame (the
root); a single `map(vpn=0x201, ppn=0x55555, R|W|U)` allocates exactly two
more frames (the table then holds three), and afterwards `translate(0x201)`
returns a PTE with PPN `0x55555` whose flags include `V|R|W|U` (= 23). -/
theorem c6_walk_create :
    ((PageTable.new initMachine).map (fun p => p.2.frames.length)).getD 0 = 1 ∧
    c6run = some (c6St, c6Pt) ∧
    c6Pt.frames.length = 3 ∧
    c6St.nextFrame = 3 ∧
    (PageTable.translate c6St c6Pt 0x201).map ptePpn = some 0x55555 ∧
    (PageTable.translate c6St c6Pt 0x201).map (fun pte => pteFlags pte &&& 23) =
      some 23 := by
  refine ⟨by decide, rfl, by decide, by decide, by decide, by decide⟩

/-- C2 counterexample: after mapping and then unmapping vpn `0x201`, the
three-level walk still reaches the leaf slot and the leaf PTE is `0`
(V clear), yet `translate` returns `some 0` rather than `None`, and
`translated_va_to_pa` likewise returns `some` (the offset over PPN 0)
instead of `None`. -/
theorem c2_counterexample :
    PageTable.translate c2St c2Pt 0x201 = some 0 ∧
    pteValid 0 = false ∧
    translated_va_to_pa c2St c2Pt.token (0x201 * 4096 + 5) = some 5 := by
  decide

/-- C2 (amended): `translate` returns `None` exactly when the walk dies at
an invalid level-2 or level-1 entry; whenever the walk reaches the leaf
slot the leaf PTE is returned as-is, with no check of its V bit, and
`translated_va_to_pa` returns `None` exactly when `translate` does. -/
theorem c2_translate_walk (st : Machine) (pt : PageTable) (vpn token va : Nat) :
    (PageTable.translate st pt vpn = none ↔
      (pteValid (st.mem pt.root_ppn (idx2 vpn)) = false ∨
        pteValid (st.mem (ptePpn (st.mem pt.root_ppn (idx2 vpn))) (idx1 vpn)) = false)) ∧
    (translated_va_to_pa st token va = none ↔
      PageTable.translate st (PageTable.from_token token) (vaFloor va) = none) := by
  constructor
  · unfold PageTable.translate find_pte findLeafSlot
    by_cases h2 : pteValid (st.mem pt.root_ppn (idx2 vpn))
    · by_cases h1 : pteValid (st.mem (ptePpn (st.mem pt.root_ppn (idx2 vpn))) (idx1 vpn))
      · simp [h2, h1]
      · simp [h2, h1]
    · simp [h2]
  · unfold translated_va_to_pa
    cases h : PageTable.translate st (PageTable.from_token token) (vaFloor va) with
    | none => simp [h]
    | some pte => simp [h]

/-- C5: `sys_mmap` returns `-1` and leaves the machine and the task
untouched whenever `start` is not page-aligned, or `port` has a bit set
outside the low three bits, or none of the low three bits is set. -/
theorem c5_mmap_rejects (st : Machine) (t : TaskControlBlock) (start len port : Nat)
    (hbad : ¬ start % PAGE_SIZE = 0 ∨ port &&& (USIZE_TOP - 8) ≠ 0 ∨ port &&& 7 = 0) :
    sys_mmap st t start len port = some (st, t, -1) := by
  unfold sys_mmap
  have hng : ¬ (start % PAGE_SIZE = 0 ∧ port &&& (USIZE_TOP - 8) = 0 ∧ port &&& 7 ≠ 0) := by
    rintro ⟨h1, h2, h3⟩
    rcases hbad with h | h | h
    · exact h h1
    · exact h h2
    · exact h3 h
  rw [if_neg hng]

/-- Witness for C5 at `port = 0b1000`: bit 3 lies outside the low three
bits, so the call returns `-1` with no side effect. -/
theorem c5_mmap_rejects_witness :
    (¬ (0 : Nat) % PAGE_SIZE = 0 ∨ (8 : Nat) &&& (USIZE_TOP - 8) ≠ 0 ∨
      (8 : Nat) &&& 7 = 0) ∧
    sys_mmap initMachine cTcb0 0 4096 8 = some (initMachine, cTcb0, -1) :=
  ⟨Or.inr (Or.inl (by decide)),
   c5_mmap_rejects initMachine cTcb0 0 4096 8 (Or.inr (Or.inl (by decide)))⟩

/-- `PageTable::unmap` never changes the page-table record itself (root and
frame list), only the memory. -/
theorem ptUnmap_pt_eq (st : Machine) (pt : PageTable) (vpn : Nat)
    (st1 : Machine) (pt1 : PageTable)
    (h : PageTable.unmap st pt vpn = some (st1, pt1)) : pt1 = pt := by
  unfold PageTable.unmap at h
  cases hs : findLeafSlot st pt.root_ppn vpn with
  | none => rw [hs] at h; exact absurd h (by simp)
  | some s =>
    obtain ⟨n, i⟩ := s
    rw [hs] at h
    by_cases hv : pteValid (st.mem n i)
    · simp [hv] at h
      exact h.2.symm
    · simp [hv] at h

/-- The unmap loop never changes the page-table record. -/
theorem unmapAllGo_pt_eq : ∀ (l : List Nat) (st : Machine) (a : MapArea)
    (pt : PageTable) (st1 : Machine) (a1 : MapArea) (pt1 : PageTable),
    unmapAllGo st a pt l = some (st1, a1, pt1) → pt1 = pt := by
  intro l
  induction l with
  | nil =>
    intro st a pt st1 a1 pt1 h
    simp [unmapAllGo] at h
    exact h.2.2.symm
  | cons v vs ih =>
    intro st a pt st1 a1 pt1 h
    unfold unmapAllGo at h
    cases hm : MapArea.unmap_one st a pt v with
    | none => rw [hm] at h; exact absurd h (by simp)
    | some r =>
      obtain ⟨st2, a2, pt2⟩ := r
      rw [hm] at h
      have hpt2 : pt2 = pt := by
        unfold MapArea.unmap_one at hm
        cases hu : PageTable.unmap st pt v with
        | none => rw [hu] at hm; exact absurd hm (by simp)
        | some q =>
          obtain ⟨st3, pt3⟩ := q
          rw [hu] at hm
          simp at hm
          rw [← hm.2.2]
          exact ptUnmap_pt_eq st pt v st3 pt3 hu
      rw [← hpt2]
      exact ih st2 a2 pt2 st1 a1 pt1 h

/-- C3 counterexample: in the bare memory set no area equals the template,
yet `delete_framed_area` over the single page `[0, 0x1000)` does not
complete: `pop` unmaps the template's range before consulting the area
list, the walk finds no leaf, and the `unwrap` inside `PageTable::unmap`
panics (modelled as `none`). -/
theorem c3_counterexample :
    bareMs.areas = [] ∧
    MemorySet.delete_framed_area bareSt bareMs 0 0x1000 = none :=
  ⟨rfl, rfl⟩

/-- C3 (amended): `pop(template)` first unconditionally unmaps every page of
the template's range, which is fatal when a page lacks a mapping; the
area-list part alone is a no-op when no listed area equals the template:
whenever the unmapping itself succeeds and no area equals the template, the
area list and the page-table record come out unchanged. -/
theorem c3_pop_not_found (st : Machine) (ms : MemorySet) (tmpl : MapArea)
    (st1 : Machine) (ms1 : MemorySet)
    (h : MemorySet.pop st ms tmpl = some (st1, ms1))
    (hnone : ∀ a ∈ ms.areas, MapArea.areaEq a tmpl = false) :
    ms1.areas = ms.areas ∧ ms1.page_table = ms.page_table := by
  unfold MemorySet.pop at h
  cases hu : MapArea.unmapArea st tmpl ms.page_table with
  | none => rw [hu] at h; exact absurd h (by simp)
  | some r =>
    obtain ⟨st2, a2, pt2⟩ := r
    rw [hu] at h
    have hpt : pt2 = ms.page_table :=
      unmapAllGo_pt_eq _ st tmpl ms.page_table st2 a2 pt2 hu
    have hidx : ms.areas.findIdx? (fun a => MapArea.areaEq a tmpl) = none :=
      List.findIdx?_eq_none_iff.mpr hnone
    rw [hidx] at h
    simp at h
    rw [← h.2]
    exact ⟨rfl, hpt⟩

/-- Witness for C3 (amended): popping an empty-range template from the bare
memory set succeeds, no area matches, and the list and page table are
unchanged. -/
theorem c3_pop_not_found_witness :
    (∃ st1 ms1, MemorySet.pop bareSt bareMs (MapArea.new 0 0 MapType.Framed 0) =
        some (st1, ms1) ∧
      (∀ a ∈ bareMs.areas, MapArea.areaEq a (MapArea.new 0 0 MapType.Framed 0) = false) ∧
      ms1.areas = bareMs.areas ∧ ms1.page_table = bareMs.page_table) := by
  have hb : ∀ a ∈ bareMs.areas, MapArea.areaEq a (MapArea.new 0 0 MapType.Framed 0) = false := by
    intro a ha
    rw [show bareMs.areas = ([] : List MapArea) from rfl] at ha
    simp at ha
  refine ⟨bareSt, ⟨bareMs.page_table, []⟩, rfl, hb, ?_⟩
  exact c3_pop_not_found bareSt bareMs (MapArea.new 0 0 MapType.Framed 0) bareSt
    ⟨bareMs.page_table, []⟩ rfl hb

/-- `Preserves` is reflexive. -/
theorem preserves_refl (st : Machine) : Preserves st st :=
  ⟨le_refl _, fun _ _ _ _ => rfl⟩

/-- `Preserves` is transitive. -/
theorem preserves_trans {st1 st2 st3 : Machine}
    (h12 : Preserves st1 st2) (h23 : Preserves st2 st3) : Preserves st1 st3 := by
  refine ⟨le_trans h12.1 h23.1, fun p i hp hv => ?_⟩
  have e : st2.mem p i = st1.mem p i := h12.2 p i hp hv
  have hv2 : pteValid (st2.mem p i) = true := by rw [e]; exact hv
  rw [h23.2 p i (lt_of_lt_of_le hp h12.1) hv2, e]

/-- Explicit description of a successful `findLeafSlot` walk. -/
theorem findLeafSlot_some_iff (st : Machine) (root vpn n i : Nat) :
    findLeafSlot st root vpn = some (n, i) ↔
      pteValid (st.mem root (idx2 vpn)) = true ∧
      pteValid (st.mem (ptePpn (st.mem root (idx2 vpn))) (idx1 vpn)) = true ∧
      n = ptePpn (st.mem (ptePpn (st.mem root (idx2 vpn))) (idx1 vpn)) ∧
      i = idx0 vpn := by
  unfold findLeafSlot
  by_cases h2 : pteValid (st.mem root (idx2 vpn)) = true
  · by_cases h1 : pteValid (st.mem (ptePpn (st.mem root (idx2 vpn))) (idx1 vpn)) = true
    · simp [h2, h1, eq_comm]
    · simp [h2, h1]
  · simp [h2]

/-- Explicit description of a successful `find_pte` walk. -/
theorem find_pte_some_iff (st : Machine) (root vpn pte : Nat) :
    find_pte st root vpn = some pte ↔
      pteValid (st.mem root (idx2 vpn)) = true ∧
      pteValid (st.mem (ptePpn (st.mem root (idx2 vpn))) (idx1 vpn)) = true ∧
      pte = st.mem
        (ptePpn (st.mem (ptePpn (st.mem root (idx2 vpn))) (idx1 vpn))) (idx0 vpn) := by
  unfold find_pte findLeafSlot
  by_cases h2 : pteValid (st.mem root (idx2 vpn)) = true
  · by_cases h1 : pteValid (st.mem (ptePpn (st.mem root (idx2 vpn))) (idx1 vpn)) = true
    · simp [h2, h1, eq_comm]
    · simp [h2, h1]
  · simp [h2]

/-- A successful leaf-slot walk survives any `Preserves` step: the two
interior entries it reads sit in allocated frames and are valid, hence
frozen. -/
theorem findLeafSlot_mono (st st1 : Machine) (root vpn n i : Nat)
    (hroot : root < st.nextFrame) (hB : Bounded st) (hP : Preserves st st1)
    (h : findLeafSlot st root vpn = some (n, i)) :
    findLeafSlot st1 root vpn = some (n, i) := by
  rw [findLeafSlot_some_iff] at h ⊢
  obtain ⟨h2, h1, hn, hi⟩ := h
  have e2 : st1.mem root (idx2 vpn) = st.mem root (idx2 vpn) := hP.2 _ _ hroot h2
  have hn1 : ptePpn (st.mem root (idx2 vpn)) < st.nextFrame := hB _ _ h2
  have e1 : st1.mem (ptePpn (st.mem root (idx2 vpn))) (idx1 vpn) =
      st.mem (ptePpn (st.mem root (idx2 vpn))) (idx1 vpn) := hP.2 _ _ hn1 h1
  rw [e2, e1]
  exact ⟨h2, h1, hn, hi⟩

/-- A successful translation of a valid leaf survives any `Preserves` step. -/
theorem find_pte_mono (st st1 : Machine) (root vpn pte : Nat)
    (hroot : root < st.nextFrame) (hB : Bounded st) (hP : Preserves st st1)
    (h : find_pte st root vpn = some pte) (hv : pteValid pte = true) :
    find_pte st1 root vpn = some pte := by
  rw [find_pte_some_iff] at h ⊢
  obtain ⟨h2, h1, hpte⟩ := h
  have e2 : st1.mem root (idx2 vpn) = st.mem root (idx2 vpn) := hP.2 _ _ hroot h2
  have hn1 : ptePpn (st.mem root (idx2 vpn)) < st.nextFrame := hB _ _ h2
  have e1 : st1.mem (ptePpn (st.mem root (idx2 vpn))) (idx1 vpn) =
      st.mem (ptePpn (st.mem root (idx2 vpn))) (idx1 vpn) := hP.2 _ _ hn1 h1
  have hn2 : ptePpn (st.mem (ptePpn (st.mem root (idx2 vpn))) (idx1 vpn)) <
      st.nextFrame := hB _ _ h1
  have hvleaf : pteValid (st.mem
      (ptePpn (st.mem (ptePpn (st.mem root (idx2 vpn))) (idx1 vpn))) (idx0 vpn)) = true := by
    rw [← hpte]; exact hv
  have e0 : st1.mem
      (ptePpn (st.mem (ptePpn (st.mem root (idx2 vpn))) (idx1 vpn))) (idx0 vpn) =
      st.mem (ptePpn (st.mem (ptePpn (st.mem root (idx2 vpn))) (idx1 vpn))) (idx0 vpn) :=
    hP.2 _ _ hn2 hvleaf
  rw [e2, e1, e0]
  exact ⟨h2, h1, hpte⟩

/-- What one `descend` step guarantees: the machine evolves by `Preserves`,
stays bounded, and afterwards the inspected entry is valid and points at the
returned child, which is an allocated frame. -/
theorem descend_ok (st : Machine) (node idx : Nat) (st1 : Machine) (fs : List Nat)
    (child : Nat) (hB : Bounded st) (hcap : st.nextFrame ≤ FRAME_CAP)
    (hn : node < st.nextFrame)
    (h : descend st node idx = some (st1, fs, child)) :
    Preserves st st1 ∧ Bounded st1 ∧ st1.nextFrame ≤ FRAME_CAP ∧
    child < st1.nextFrame ∧
    pteValid (st1.mem node idx) = true ∧ ptePpn (st1.mem node idx) = child := by
  unfold descend at h
  by_cases hv : pteValid (st.mem node idx) = true
  · simp only [hv, if_true, Option.some.injEq, Prod.mk.injEq] at h
    obtain ⟨e1, _, e3⟩ := h
    subst e1
    subst e3
    exact ⟨preserves_refl st, hB, hcap, hB _ _ hv, hv, rfl⟩
  · have hvf : pteValid (st.mem node idx) = false := by
      revert hv; cases pteValid (st.mem node idx) <;> simp
    simp only [hvf, Bool.false_eq_true, if_false] at h
    unfold frame_alloc at h
    by_cases hc : st.nextFrame < FRAME_CAP
    · rw [if_pos hc] at h
      simp only [Option.some.injEq, Prod.mk.injEq] at h
      obtain ⟨e1, _, e3⟩ := h
      have hfcap : st.nextFrame < 2 ^ 44 := hc
      have hppn : ptePpn (pteNew st.nextFrame 1) = st.nextFrame :=
        pteNew_ppn st.nextFrame 1 hfcap (by norm_num)
      have hmem : ∀ q j, st1.mem q j =
          if q = node ∧ j = idx then pteNew st.nextFrame 1
          else if q = st.nextFrame then 0 else st.mem q j := by
        intro q j
        rw [← e1]
        rfl
      have hnf : st1.nextFrame = st.nextFrame + 1 := by rw [← e1]; rfl
      refine ⟨⟨by omega, ?_⟩, ?_, by omega, ?_, ?_, ?_⟩
      · intro p i hp hval
        rw [hmem p i]
        by_cases hpi : p = node ∧ i = idx
        · exfalso
          rw [hpi.1, hpi.2] at hval
          rw [hval] at hv
          exact hv rfl
        · rw [if_neg hpi, if_neg (by omega)]
      · intro p i hval
        rw [hmem p i] at hval ⊢
        rw [hnf]
        by_cases hpi : p = node ∧ i = idx
        · rw [if_pos hpi] at hval ⊢
          rw [hppn]
          omega
        · rw [if_neg hpi] at hval ⊢
          by_cases hpf : p = st.nextFrame
          · rw [if_pos hpf] at hval
            exact absurd hval (by decide)
          · rw [if_neg hpf] at hval ⊢
            have := hB p i hval
            omega
      · rw [hnf, ← e3, hppn]
        omega
      · rw [hmem node idx, if_pos ⟨rfl, rfl⟩]
        exact pteNew_valid st.nextFrame 1 (by norm_num) rfl
      · rw [hmem node idx, if_pos ⟨rfl, rfl⟩, ← e3]
    · rw [if_neg hc] at h
      exact absurd h (by simp)

/-- What `find_pte_create` guarantees on success: `Preserves`, the
invariant, and a leaf slot in an allocated frame that `findLeafSlot` now
reaches. -/
theorem find_pte_create_ok (st : Machine) (root vpn : Nat) (st2 : Machine)
    (fs : List Nat) (n i : Nat) (hroot : root < st.nextFrame)
    (hcap : st.nextFrame ≤ FRAME_CAP) (hB : Bounded st)
    (h : find_pte_create st root vpn = some (st2, fs, n, i)) :
    Preserves st st2 ∧ Bounded st2 ∧ st2.nextFrame ≤ FRAME_CAP ∧
    root < st2.nextFrame ∧ n < st2.nextFrame ∧ i = idx0 vpn ∧
    findLeafSlot st2 root vpn = some (n, i) := by
  unfold find_pte_create at h
  cases hd2 : descend st root (idx2 vpn) with
  | none => rw [hd2] at h; exact absurd h (by simp)
  | some r2 =>
    obtain ⟨stA, fs2, n1⟩ := r2
    rw [hd2] at h
    simp only at h
    cases hd1 : descend stA n1 (idx1 vpn) with
    | none => rw [hd1] at h; exact absurd h (by simp)
    | some r1 =>
      obtain ⟨stB, fs1, n2⟩ := r1
      rw [hd1] at h
      simp only [Option.some.injEq, Prod.mk.injEq] at h
      obtain ⟨eB, _, en, ei⟩ := h
      subst eB
      subst en
      subst ei
      obtain ⟨hP2, hB2, hcap2, hn1, hv2, hppn2⟩ :=
        descend_ok st root (idx2 vpn) stA fs2 n1 hB hcap hroot hd2
      have hrootA : root < stA.nextFrame := lt_of_lt_of_le hroot hP2.1
      obtain ⟨hP1, hB1, hcap1, hn2b, hv1, hppn1⟩ :=
        descend_ok stA n1 (idx1 vpn) stB fs1 n2 hB2 hcap2 hn1 hd1
      have hPs : Preserves st stB := preserves_trans hP2 hP1
      have hrootB : root < stB.nextFrame := lt_of_lt_of_le hrootA hP1.1
      refine ⟨hPs, hB1, hcap1, hrootB, hn2b, rfl, ?_⟩
      rw [findLeafSlot_some_iff]
      have e2 : stB.mem root (idx2 vpn) = stA.mem root (idx2 vpn) :=
        hP1.2 _ _ hrootA hv2
      rw [e2, hppn2]
      exact ⟨hv2, hv1, hppn1.symm, rfl⟩

/-- What `PageTable::map` guarantees on success: `Preserves`, the invariant,
an unchanged root, and that the mapped vpn now translates to
`(ppn, flags | V)`. -/
theorem ptMap_ok (st : Machine) (pt : PageTable) (vpn ppn flags : Nat)
    (st3 : Machine) (pt3 : PageTable) (hroot : pt.root_ppn < st.nextFrame)
    (hcap : st.nextFrame ≤ FRAME_CAP) (hB : Bounded st)
    (hppn : ppn < st.nextFrame) (hfl : flags ||| 1 < 256)
    (h : PageTable.map st pt vpn ppn flags = some (st3, pt3)) :
    Preserves st st3 ∧ Bounded st3 ∧ st3.nextFrame ≤ FRAME_CAP ∧
    pt.root_ppn < st3.nextFrame ∧ pt3.root_ppn = pt.root_ppn ∧
    find_pte st3 pt.root_ppn vpn = some (pteNew ppn (flags ||| 1)) := by
  unfold PageTable.map at h
  cases hf : find_pte_create st pt.root_ppn vpn with
  | none => rw [hf] at h; exact absurd h (by simp)
  | some r =>
    obtain ⟨st2, newfs, n, i⟩ := r
    rw [hf] at h
    have h2 : (if pteValid (st2.mem n i) = true then none
        else some (writeMem st2 n i (pteNew ppn (flags ||| 1)),
          (⟨pt.root_ppn, pt.frames ++ newfs⟩ : PageTable))) = some (st3, pt3) := h
    clear h
    by_cases hlv : pteValid (st2.mem n i) = true
    · rw [if_pos hlv] at h2
      exact absurd h2 (by simp)
    · rw [if_neg hlv] at h2
      simp only [Option.some.injEq, Prod.mk.injEq] at h2
      obtain ⟨e3, ept⟩ := h2
      obtain ⟨hP2, hB2, hcap2, hroot2, hn2, hi, hslot⟩ :=
        find_pte_create_ok st pt.root_ppn vpn st2 newfs n i hroot hcap hB hf
      have hmem3 : ∀ q j, st3.mem q j =
          if q = n ∧ j = i then pteNew ppn (flags ||| 1) else st2.mem q j := by
        intro q j
        rw [← e3]
        rfl
      have hnf3 : st3.nextFrame = st2.nextFrame := by rw [← e3]; rfl
      have hP3 : Preserves st2 st3 := by
        refine ⟨by omega, fun p j hp hval => ?_⟩
        rw [hmem3 p j]
        by_cases hpi : p = n ∧ j = i
        · exfalso
          rw [hpi.1, hpi.2] at hval
          exact hlv hval
        · rw [if_neg hpi]
      have hB3 : Bounded st3 := by
        intro p j hval
        rw [hmem3 p j] at hval ⊢
        rw [hnf3]
        by_cases hpi : p = n ∧ j = i
        · rw [if_pos hpi] at hval ⊢
          rw [pteNew_ppn ppn (flags ||| 1) (by
            have : st.nextFrame ≤ 2 ^ 44 := hcap
            omega) (by omega)]
          have := hP2.1
          omega
        · rw [if_neg hpi] at hval ⊢
          exact hB2 p j hval
      have hslot3 : findLeafSlot st3 pt.root_ppn vpn = some (n, i) :=
        findLeafSlot_mono st2 st3 pt.root_ppn vpn n i hroot2 hB2 hP3 hslot
      refine ⟨preserves_trans hP2 hP3, hB3, by omega, by omega, by rw [← ept], ?_⟩
      unfold find_pte
      rw [hslot3]
      show some (st3.mem n i) = some (pteNew ppn (flags ||| 1))
      rw [hmem3 n i, if_pos ⟨rfl, rfl⟩]

/-- What a successful allocation guarantees: the old memory is intact (the
fresh frame is zeroed, but it lies at the cursor), the invariant persists,
and the returned frame is the old cursor. -/
theorem frame_alloc_ok (st : Machine) (f : Nat) (st1 : Machine)
    (hB : Bounded st) (hcap : st.nextFrame ≤ FRAME_CAP)
    (h : frame_alloc st = some (f, st1)) :
    Preserves st st1 ∧ Bounded st1 ∧ st1.nextFrame ≤ FRAME_CAP ∧
    f = st.nextFrame ∧ st1.nextFrame = st.nextFrame + 1 ∧ f < st1.nextFrame := by
  unfold frame_alloc at h
  by_cases hc : st.nextFrame < FRAME_CAP
  · rw [if_pos hc] at h
    simp only [Option.some.injEq, Prod.mk.injEq] at h
    obtain ⟨ef, est⟩ := h
    have hmem : ∀ q j, st1.mem q j = if q = st.nextFrame then 0 else st.mem q j := by
      intro q j
      rw [← est]
    have hnf : st1.nextFrame = st.nextFrame + 1 := by rw [← est]
    refine ⟨⟨by omega, fun p i hp hv => ?_⟩, ?_, by omega, ef.symm, hnf, by omega⟩
    · rw [hmem p i, if_neg (by omega)]
    · intro p i hv
      rw [hmem p i] at hv ⊢
      rw [hnf]
      by_cases hpf : p = st.nextFrame
      · rw [if_pos hpf] at hv
        exact absurd hv (by decide)
      · rw [if_neg hpf] at hv ⊢
        have := hB p i hv
        omega
  · rw [if_neg hc] at h
    exact absurd h (by simp)

/-- What `MapArea::map_one` guarantees on a `Framed` area: invariants are
kept, the area only gains the binding `vpn ↦ f` for the fresh frame `f`, and
the vpn now translates to `(f, perm | V)`. -/
theorem mapOne_framed_ok (st : Machine) (a : MapArea) (pt : PageTable) (vpn : Nat)
    (st2 : Machine) (a2 : MapArea) (pt2 : PageTable)
    (hroot : pt.root_ppn < st.nextFrame) (hcap : st.nextFrame ≤ FRAME_CAP)
    (hB : Bounded st) (hty : a.map_type = MapType.Framed) (hperm : a.map_perm < 32)
    (h : MapArea.map_one st a pt vpn = some (st2, a2, pt2)) :
    Preserves st st2 ∧ Bounded st2 ∧ st2.nextFrame ≤ FRAME_CAP ∧
    pt.root_ppn < st2.nextFrame ∧ pt2.root_ppn = pt.root_ppn ∧
    a2.vpn_start = a.vpn_start ∧ a2.vpn_end = a.vpn_end ∧
    a2.map_type = a.map_type ∧ a2.map_perm = a.map_perm ∧
    ∃ f, f < FRAME_CAP ∧
      (∀ v, a2.data_frames v = if v = vpn then some f else a.data_frames v) ∧
      find_pte st2 pt.root_ppn vpn = some (pteNew f (a.map_perm ||| 1)) ∧
      pteValid (pteNew f (a.map_perm ||| 1)) = true := by
  unfold MapArea.map_one at h
  rw [hty] at h
  cases ha : frame_alloc st with
  | none => rw [ha] at h; exact absurd h (by simp)
  | some r =>
    obtain ⟨f, st1⟩ := r
    rw [ha] at h
    simp only at h
    cases hm : PageTable.map st1 pt vpn f a.map_perm with
    | none => rw [hm] at h; exact absurd h (by simp)
    | some q =>
      obtain ⟨stM, ptM⟩ := q
      rw [hm] at h
      simp only [Option.some.injEq, Prod.mk.injEq] at h
      obtain ⟨e1, ea, e2⟩ := h
      obtain ⟨hPa, hBa, hcapa, _, hnfa, hfa⟩ := frame_alloc_ok st f st1 hB hcap ha
      have hroot1 : pt.root_ppn < st1.nextFrame := lt_of_lt_of_le hroot hPa.1
      have hfl : a.map_perm ||| 1 < 256 := (perm_or_one_facts a.map_perm hperm).1
      obtain ⟨hPm, hBm, hcapm, hrootm, hptm, hfind⟩ :=
        ptMap_ok st1 pt vpn f a.map_perm stM ptM hroot1 hcapa hBa hfa hfl hm
      subst e1
      subst e2
      refine ⟨preserves_trans hPa hPm, hBm, hcapm, hrootm, hptm, ?_, ?_, ?_, ?_, ?_⟩
      · rw [← ea]
      · rw [← ea]
      · rw [← ea]
        exact hty.symm
      · rw [← ea]
      · refine ⟨f, lt_of_lt_of_le hfa hcapa, ?_, hfind, ?_⟩
        · intro v
          rw [← ea]
        · exact pteNew_valid f (a.map_perm ||| 1) hfl
            (perm_or_one_facts a.map_perm hperm).2.1

/-- Membership in a VPN range list is the pair of bounds. -/
theorem mem_vpnRangeList (s e v : Nat) : v ∈ vpnRangeList s e ↔ s ≤ v ∧ v < e := by
  unfold vpnRangeList
  simp only [List.mem_map, List.mem_range]
  constructor
  · rintro ⟨k, hk, rfl⟩
    omega
  · intro hv
    exact ⟨v - s, by omega, by omega⟩

/-- What the map loop guarantees on a `Framed` area: invariants are kept,
bindings outside the processed list are untouched, and every processed vpn
ends with a recorded frame whose PTE the final state still translates to. -/
theorem mapAllGo_ok : ∀ (l : List Nat) (st : Machine) (a : MapArea) (pt : PageTable)
    (st2 : Machine) (a2 : MapArea) (pt2 : PageTable),
    pt.root_ppn < st.nextFrame → st.nextFrame ≤ FRAME_CAP → Bounded st →
    a.map_type = MapType.Framed → a.map_perm < 32 →
    mapAllGo st a pt l = some (st2, a2, pt2) →
    Preserves st st2 ∧ Bounded st2 ∧ st2.nextFrame ≤ FRAME_CAP ∧
    pt.root_ppn < st2.nextFrame ∧ pt2.root_ppn = pt.root_ppn ∧
    a2.map_type = a.map_type ∧ a2.map_perm = a.map_perm ∧
    (∀ v, v ∉ l → a2.data_frames v = a.data_frames v) ∧
    (∀ v ∈ l, ∃ f, f < FRAME_CAP ∧ a2.data_frames v = some f ∧
      find_pte st2 pt.root_ppn v = some (pteNew f (a.map_perm ||| 1))) := by
  intro l
  induction l with
  | nil =>
    intro st a pt st2 a2 pt2 hroot hcap hB _ _ h
    simp only [mapAllGo, Option.some.injEq, Prod.mk.injEq] at h
    obtain ⟨e1, e2, e3⟩ := h
    subst e1
    subst e2
    subst e3
    refine ⟨preserves_refl st, hB, hcap, hroot, rfl, rfl, rfl, fun v _ => rfl, ?_⟩
    intro v hv
    exact absurd hv (by simp)
  | cons w ws ih =>
    intro st a pt st2 a2 pt2 hroot hcap hB hty hperm h
    unfold mapAllGo at h
    cases hm : MapArea.map_one st a pt w with
    | none => rw [hm] at h; exact absurd h (by simp)
    | some r =>
      obtain ⟨st1, a1, pt1⟩ := r
      rw [hm] at h
      simp only at h
      obtain ⟨hP1, hB1, hcap1, hroot1, hpt1, hs1, he1, hty1, hperm1, f1, hf1cap, hdf1, hfind1, hv1⟩ :=
        mapOne_framed_ok st a pt w st1 a1 pt1 hroot hcap hB hty hperm hm
      have hroot1b : pt1.root_ppn < st1.nextFrame := by rw [hpt1]; exact hroot1
      obtain ⟨hP2, hB2, hcap2, hroot2, hpt2, hty2, hperm2, hout, hin⟩ :=
        ih st1 a1 pt1 st2 a2 pt2 hroot1b hcap1 hB1 (by rw [hty1, hty]) (by rw [hperm1]; exact hperm) h
      have hptfin : pt2.root_ppn = pt.root_ppn := by rw [hpt2, hpt1]
      refine ⟨preserves_trans hP1 hP2, hB2, hcap2, ?_, hptfin,
        by rw [hty2, hty1], by rw [hperm2, hperm1], ?_, ?_⟩
      · rw [hpt1] at hroot2
        exact hroot2
      · intro v hv
        have hvw : v ≠ w := fun e => hv (e ▸ List.mem_cons_self w ws)
        have hvws : v ∉ ws := fun e => hv (List.mem_cons_of_mem w e)
        rw [hout v hvws, hdf1 v, if_neg hvw]
      · intro v hv
        rcases List.mem_cons.mp hv with hvw | hvws
        · subst hvw
          by_cases hmem : v ∈ ws
          · obtain ⟨f, hfcap, hdf, hfind⟩ := hin v hmem
            refine ⟨f, hfcap, hdf, ?_⟩
            rw [hpt1] at hfind
            rw [hperm1] at hfind
            exact hfind
          · refine ⟨f1, hf1cap, ?_, ?_⟩
            · rw [hout v hmem, hdf1 v, if_pos rfl]
            · have := find_pte_mono st1 st2 pt.root_ppn v
                (pteNew f1 (a.map_perm ||| 1)) hroot1 hB1 hP2 hfind1 hv1
              exact this
        · obtain ⟨f, hfcap, hdf, hfind⟩ := hin v hvws
          refine ⟨f, hfcap, hdf, ?_⟩
          rw [hpt1, hperm1] at hfind
          exact hfind

/-- C1: whenever `insert_framed_area` succeeds on a well-formed memory set,
then for every virtual address `va` covered by the installed area (and every
permission byte drawn from `R|W|X|U`, i.e. `perm &&& 30 = perm`),
`translate(floor(va))` returns a valid PTE whose flag bits are exactly
`perm ∪ {V}`, whose PPN is the very frame the new area records for
`floor(va)` in its VPN-to-frame map, and whose `U` bit agrees with `perm`'s
`U` bit. -/
theorem c1_insert_framed_roundtrip (st : Machine) (ms : MemorySet)
    (start_va end_va perm va : Nat) (st2 : Machine) (ms2 : MemorySet)
    (hInv : Inv st ms.page_table.root_ppn)
    (hperm : perm &&& 30 = perm)
    (h : MemorySet.insert_framed_area st ms start_va end_va perm = some (st2, ms2))
    (hlo : vaFloor start_va ≤ vaFloor va) (hhi : vaFloor va < vaCeil end_va) :
    ∃ a f, ms2.areas = ms.areas ++ [a] ∧
      a.data_frames (vaFloor va) = some f ∧
      MemorySet.translate st2 ms2 (vaFloor va) = some (pteNew f (perm ||| 1)) ∧
      pteValid (pteNew f (perm ||| 1)) = true ∧
      ptePpn (pteNew f (perm ||| 1)) = f ∧
      pteFlags (pteNew f (perm ||| 1)) = perm ||| 1 ∧
      pteFlags (pteNew f (perm ||| 1)) &&& 16 = perm &&& 16 := by
  have hperm32 : perm < 32 := by
    have h30 : perm &&& 30 ≤ 30 := Nat.and_le_right
    omega
  obtain ⟨hroot, hcap, hB⟩ := hInv
  unfold MemorySet.insert_framed_area MemorySet.push MapArea.mapArea at h
  simp only [MapArea.new] at h
  cases hmap : mapAllGo st ⟨vaFloor start_va, vaCeil end_va, fun _ => none,
      MapType.Framed, perm⟩ ms.page_table
      (vpnRangeList (vaFloor start_va) (vaCeil end_va)) with
  | none => rw [hmap] at h; exact absurd h (by simp)
  | some r =>
    obtain ⟨stR, aR, ptR⟩ := r
    rw [hmap] at h
    simp only [Option.some.injEq, Prod.mk.injEq] at h
    obtain ⟨e1, e2⟩ := h
    subst e1
    obtain ⟨hP, hB2, hcap2, hroot2, hptR, _, _, _, hin⟩ :=
      mapAllGo_ok (vpnRangeList (vaFloor start_va) (vaCeil end_va)) st
        ⟨vaFloor start_va, vaCeil end_va, fun _ => none, MapType.Framed, perm⟩
        ms.page_table stR aR ptR hroot hcap hB rfl hperm32 hmap
    have hmem : vaFloor va ∈ vpnRangeList (vaFloor start_va) (vaCeil end_va) :=
      (mem_vpnRangeList _ _ _).mpr ⟨hlo, hhi⟩
    obtain ⟨f, hfcap, hdf, hfind⟩ := hin (vaFloor va) hmem
    have hfl : perm ||| 1 < 256 := (perm_or_one_facts perm hperm32).1
    refine ⟨aR, f, by rw [← e2], hdf, ?_, ?_, ?_, ?_, ?_⟩
    · unfold MemorySet.translate PageTable.translate
      rw [← e2]
      show find_pte stR ptR.root_ppn (vaFloor va) = some (pteNew f (perm ||| 1))
      rw [hptR]
      exact hfind
    · exact pteNew_valid f (perm ||| 1) hfl (perm_or_one_facts perm hperm32).2.1
    · exact pteNew_ppn f (perm ||| 1) hfcap (by omega)
    · exact pteNew_flags f (perm ||| 1) hfl
    · rw [pteNew_flags f (perm ||| 1) hfl]
      exact (perm_or_one_facts perm hperm32).2.2.1

/-- The machine right after boot plus root allocation satisfies the
invariant for root 0. -/
theorem bare_inv : Inv bareSt 0 := by
  refine ⟨by decide, by decide, ?_⟩
  intro p i hval
  have hm : bareSt.mem p i = if p = 0 then 0 else 0 := rfl
  rw [ite_self] at hm
  rw [hm] at hval
  exact absurd hval (by decide)

/-- Witness for C1: inserting `[0x1000, 0x2000)` with `perm = R` into the
bare memory set and reading back `va = 0x1234`. -/
theorem c1_insert_framed_roundtrip_witness :
    (Inv bareSt bareMs.page_table.root_ppn ∧ (2 : Nat) &&& 30 = 2 ∧
      MemorySet.insert_framed_area bareSt bareMs 0x1000 0x2000 2 = some (c1St, c1Ms) ∧
      vaFloor 0x1000 ≤ vaFloor 0x1234 ∧ vaFloor 0x1234 < vaCeil 0x2000) ∧
    (∃ a f, c1Ms.areas = bareMs.areas ++ [a] ∧
      a.data_frames (vaFloor 0x1234) = some f ∧
      MemorySet.translate c1St c1Ms (vaFloor 0x1234) = some (pteNew f (2 ||| 1)) ∧
      pteValid (pteNew f (2 ||| 1)) = true ∧
      ptePpn (pteNew f (2 ||| 1)) = f ∧
      pteFlags (pteNew f (2 ||| 1)) = 2 ||| 1 ∧
      pteFlags (pteNew f (2 ||| 1)) &&& 16 = (2 : Nat) &&& 16) :=
  ⟨⟨bare_inv, by decide, rfl, by decide, by decide⟩,
   c1_insert_framed_roundtrip bareSt bareMs 0x1000 0x2000 2 0x1234 c1St c1Ms
     bare_inv (by decide) rfl (by decide) (by decide)⟩

/-- C7: `change_program_brk` returns `None` with machine and task untouched
whenever `program_brk + delta` would drop below the heap bottom (so
`sys_sbrk` returns `-1` there), and whenever it succeeds the value returned
is the old program break. -/
theorem c7_sbrk (st : Machine) (t : TaskControlBlock) (size : Int) :
    (((t.program_brk : Int) + size < (t.heap_bottom : Int)) →
      change_program_brk st t size = some (st, t, none) ∧
      sys_sbrk st t size = some (st, t, -1)) ∧
    (∀ st1 t1 r, change_program_brk st t size = some (st1, t1, some r) →
      r = t.program_brk) := by
  constructor
  · intro hlow
    have hc : change_program_brk st t size = some (st, t, none) := by
      unfold change_program_brk
      rw [if_pos hlow]
    refine ⟨hc, ?_⟩
    unfold sys_sbrk
    rw [hc]
  · intro st1 t1 r h
    unfold change_program_brk at h
    by_cases hlow : (t.program_brk : Int) + size < (t.heap_bottom : Int)
    · rw [if_pos hlow] at h
      simp at h
    · rw [if_neg hlow] at h
      cases hm : (if size < 0 then
          MemorySet.shrink_to st t.memory_set t.heap_bottom
            ((t.program_brk : Int) + size).toNat
        else
          MemorySet.append_to st t.memory_set t.heap_bottom
            ((t.program_brk : Int) + size).toNat) with
      | none => rw [hm] at h; exact absurd h (by simp)
      | some q =>
        obtain ⟨stq, msq, resq⟩ := q
        rw [hm] at h
        simp only at h
        cases resq with
        | true =>
          simp only [if_true, Option.some.injEq, Prod.mk.injEq] at h
          exact h.2.2.symm
        | false =>
          exact absurd h (by simp)

/-- Witness for C7: on the heap task, `sbrk(-9000)` would drop the break
below the heap bottom, so the call fails with no state change and `sys_sbrk`
returns `-1`. -/
theorem c7_sbrk_witness :
    ((cTcbHeap.program_brk : Int) + (-9000) < (cTcbHeap.heap_bottom : Int)) ∧
    (change_program_brk initMachine cTcbHeap (-9000) =
        some (initMachine, cTcbHeap, none) ∧
      sys_sbrk initMachine cTcbHeap (-9000) = some (initMachine, cTcbHeap, -1)) :=
  ⟨by decide, (c7_sbrk initMachine cTcbHeap (-9000)).1 (by decide)⟩

/-- The loop of `translated_byte_buffer` succeeds exactly when every page
from `start / 4096` through `(end_ - 1) / 4096` has a walkable leaf slot; a
single missing page makes the whole loop return `none` (the modelled
panic), never a partial list. -/
theorem tbbLoop_isSome (st : Machine) (root : Nat) :
    ∀ (k start end_ : Nat), end_ - start ≤ k → start < end_ →
    ((tbbLoop st root start end_).isSome = true ↔
      ∀ vpn, start / 4096 ≤ vpn → vpn ≤ (end_ - 1) / 4096 →
        (find_pte st root vpn).isSome = true) := by
  intro k
  induction k with
  | zero =>
    intro start end_ hk hlt
    omega
  | succ k ih =>
    intro start end_ hk hlt
    rw [tbbLoop.eq_def]
    simp only [PAGE_SIZE]
    rw [dif_pos hlt]
    cases hp : find_pte st root (start / 4096) with
    | none =>
      simp only [Option.isSome_none, Bool.false_eq_true, false_iff]
      intro hall
      have h1 : start / 4096 ≤ (end_ - 1) / 4096 := Nat.div_le_div_right (by omega)
      have h2 := hall (start / 4096) (le_refl _) h1
      rw [hp] at h2
      exact absurd h2 (by decide)
    | some pte =>
      rcases Nat.lt_or_ge ((start / 4096 + 1) * 4096) end_ with hord | hord
      · have hmin : min ((start / 4096 + 1) * 4096) end_ = (start / 4096 + 1) * 4096 :=
          min_eq_left (le_of_lt hord)
        rw [hmin]
        have hstartlt : start < (start / 4096 + 1) * 4096 := by omega
        have hk2 : end_ - (start / 4096 + 1) * 4096 ≤ k := by omega
        have IH2 := ih ((start / 4096 + 1) * 4096) end_ hk2 hord
        have hdiv : (start / 4096 + 1) * 4096 / 4096 = start / 4096 + 1 := by omega
        rw [hdiv] at IH2
        cases hrec : tbbLoop st root ((start / 4096 + 1) * 4096) end_ with
        | none =>
          rw [hrec] at IH2
          refine iff_of_false (by simp) ?_
          intro hall
          have hrest : ∀ vpn, start / 4096 + 1 ≤ vpn → vpn ≤ (end_ - 1) / 4096 →
              (find_pte st root vpn).isSome = true := by
            intro vpn hv1 hv2
            exact hall vpn (by omega) hv2
          have := IH2.mpr hrest
          exact absurd this (by decide)
        | some rest =>
          rw [hrec] at IH2
          refine iff_of_true rfl ?_
          have hall2 := IH2.mp rfl
          intro vpn hv1 hv2
          by_cases hq : vpn = start / 4096
          · rw [hq, hp]
            rfl
          · exact hall2 vpn (by omega) hv2
      · have hmin : min ((start / 4096 + 1) * 4096) end_ = end_ := min_eq_right hord
        rw [hmin]
        have hloop : tbbLoop st root end_ end_ = some [] := by
          rw [tbbLoop.eq_def]
          rw [dif_neg (by omega)]
        rw [hloop]
        refine iff_of_true rfl ?_
        intro vpn hv1 hv2
        have hvq : vpn = start / 4096 := by omega
        rw [hvq, hp]
        rfl

/-- C10: for a nonempty request, `translated_byte_buffer` returns its
gather-list precisely when every virtual page of `[ptr, ptr + len)` has a
page-table path to a leaf slot in the address space named by the token; if
any page lacks one, the whole call fails (the `unwrap` panic, modelled as
`none`) rather than returning a partial list or an error value. -/
theorem c10_buffer_totality (st : Machine) (token ptr len : Nat) (hlen : 0 < len) :
    ((translated_byte_buffer st token ptr len).isSome = true ↔
      ∀ vpn, ptr / PAGE_SIZE ≤ vpn → vpn ≤ (ptr + len - 1) / PAGE_SIZE →
        (PageTable.translate st (PageTable.from_token token) vpn).isSome = true) := by
  unfold translated_byte_buffer PageTable.translate
  simp only [PAGE_SIZE]
  exact tbbLoop_isSome st (PageTable.from_token token).root_ppn (ptr + len - ptr)
    ptr (ptr + len) (le_refl _) (by omega)

/-- Witness for C10 at `len = 1` on the boot machine (where no page is
mapped, so both sides of the equivalence are false). -/
theorem c10_buffer_totality_witness :
    (0 : Nat) < 1 ∧
    ((translated_byte_buffer initMachine 0 0 1).isSome = true ↔
      ∀ vpn, 0 / PAGE_SIZE ≤ vpn → vpn ≤ (0 + 1 - 1) / PAGE_SIZE →
        (PageTable.translate initMachine (PageTable.from_token 0) vpn).isSome = true) :=
  ⟨by decide, c10_buffer_totality initMachine 0 0 1 (by decide)⟩

end RCoreMM
